import Mathlib

/-!
Verification of the travel-deal pipeline
(src/family_deal_hacker_automated_app_streamlit_free_hosting.py).

Strings are modelled as lists of characters (`Str`), Python floats as
rationals, and fallible extraction as `Option`.  Each definition below is a
shallow embedding of the correspondingly named Python function; the
module-level parse loop is embedded as `parseRow`, the sort-and-slice line
as `rank`, and the two try/except blocks of `fetch_all_sources` take the
adapters' outcomes as `Except` parameters.
-/

namespace Travel

abbrev Str := List Char

def strL (s : String) : Str := s.toList

/-- Python `needle in hay` would test whether `needle` occurs as a prefix of
`hay`; helper for substring containment. -/
def isPre : Str → Str → Bool
  | [], _ => true
  | _ :: _, [] => false
  | p :: ps, c :: cs => p == c && isPre ps cs

/-- Python substring containment `needle in hay`. -/
def isSub (needle : Str) : Str → Bool
  | [] => needle.isEmpty
  | c :: rest => isPre needle (c :: rest) || isSub needle rest

/-- Python `str.lower()` (ASCII case folding, which covers every character
the program compares). -/
def toLowerL (s : Str) : Str := s.map Char.toLower

/-- Whitespace class of the regex escape for spaces. -/
def isSpaceC (c : Char) : Bool :=
  c == ' ' || c == '\t' || c == '\n' || c == '\x0d' || c == '\x0b' || c == '\x0c'

/-! ## Reference catalog (DEST_META), LONDON_CODES, flight-hour table -/

structure DestMeta where
  city : Str
  country : Str
  transfer_mins : ℚ
  walk : ℚ
  areas : List Str
deriving DecidableEq

def DEST_META : List (Str × DestMeta) :=
  [ (strL "FNC", ⟨strL "Funchal (Madeira)", strL "Portugal", 45, 4, [strL "Lido promenade", strL "Forum Madeira"]⟩)
  , (strL "TFS", ⟨strL "Tenerife South → Costa Adeje", strL "Spain (Canaries)", 40, 5, [strL "Costa Adeje", strL "Fañabé"]⟩)
  , (strL "KEF", ⟨strL "Reykjavík", strL "Iceland", 45, 4, [strL "101 Reykjavík", strL "Harpa"]⟩)
  , (strL "NCE", ⟨strL "Nice", strL "France", 28, 5, [strL "Vieux Nice", strL "Jean Médecin"]⟩)
  , (strL "PMI", ⟨strL "Palma de Mallorca", strL "Spain (Balearics)", 22, 5, [strL "Can Pastilla", strL "Old Town"]⟩)
  , (strL "LIS", ⟨strL "Lisbon", strL "Portugal", 24, 4, [strL "Baixa", strL "Chiado", strL "Saldanha"]⟩)
  , (strL "OPO", ⟨strL "Porto", strL "Portugal", 30, 4, [strL "Cedofeita", strL "Ribeira"]⟩)
  , (strL "DBV", ⟨strL "Dubrovnik", strL "Croatia", 35, 4, [strL "Lapad promenade"]⟩)
  , (strL "VLC", ⟨strL "Valencia", strL "Spain", 25, 5, [strL "Ruzafa", strL "Eixample"]⟩)
  , (strL "SID", ⟨strL "Sal (Cape Verde)", strL "Cape Verde", 20, 4, [strL "Santa Maria"]⟩) ]

def LONDON_CODES : List Str :=
  [strL "LHR", strL "LGW", strL "LTN", strL "STN", strL "LCY", strL "SEN"]

/-- The curated table inside estimate_flight_hours. -/
def HOURS_TABLE : List (Str × ℚ) :=
  [ (strL "FNC", 4), (strL "TFS", 4.5), (strL "KEF", 3), (strL "NCE", 2.1), (strL "PMI", 2.3)
  , (strL "LIS", 2.8), (strL "OPO", 2.2), (strL "DBV", 2.8), (strL "VLC", 2.3), (strL "SID", 6) ]

/-- estimate_flight_hours: curated value for known codes, default 3.0. -/
def estimate_flight_hours (code : Str) : ℚ :=
  (List.lookup code HOURS_TABLE).getD 3

/-! ## extract_price and its regex patterns

The first pattern is a pound sign, an optional whitespace, one or more
digits, an optional dot-or-comma and further digits.  The second and third
patterns prepend case-insensitive literals and optional whitespace.  The
regexes are deterministic on these patterns (the optional pieces never need
backtracking because whitespace, the pound sign and digits are disjoint
classes), so the embedding matches greedily. -/

/-- The numeric tail of the patterns: digits, then optionally a dot or comma
followed by more digits.  Returns the captured group. -/
def matchNum (cs : Str) : Option Str :=
  let ds := cs.takeWhile Char.isDigit
  if ds.isEmpty then none
  else
    match cs.drop ds.length with
    | c :: rest =>
        if c == '.' || c == ',' then some (ds ++ c :: rest.takeWhile Char.isDigit)
        else some ds
    | [] => some ds

/-- After the pound sign: one optional whitespace, then the numeric group. -/
def matchPoundRest : Str → Option Str
  | [] => none
  | c :: rest2 =>
      if c.isDigit then matchNum (c :: rest2)
      else if isSpaceC c then matchNum rest2
      else none

/-- A pound sign, one optional whitespace, then the numeric group. -/
def matchPoundAt : Str → Option Str
  | [] => none
  | c0 :: rest => if c0 == '£' then matchPoundRest rest else none

/-- Case-insensitive literal match; on success returns the remaining text. -/
def matchCI : Str → Str → Option Str
  | [], cs => some cs
  | _ :: _, [] => none
  | p :: ps, c :: cs => if c.toLower == p then matchCI ps cs else none

/-- Pattern 2 at a fixed position: from, any whitespace, pound group. -/
def matchFromAt (cs : Str) : Option Str :=
  (matchCI (strL "from") cs).bind fun r => matchPoundAt (r.dropWhile isSpaceC)

/-- Pattern 3 at a fixed position: for, whitespace, only, whitespace, pound group. -/
def matchForOnlyAt (cs : Str) : Option Str :=
  (matchCI (strL "for") cs).bind fun r1 =>
    (matchCI (strL "only") (r1.dropWhile isSpaceC)).bind fun r2 =>
      matchPoundAt (r2.dropWhile isSpaceC)

/-- Leftmost match: try the matcher at every position, left to right. -/
def searchWith (m : Str → Option Str) : Str → Option Str
  | [] => none
  | c :: rest =>
      match m (c :: rest) with
      | some g => some g
      | none => searchWith m rest

/-- Decimal digit string to a natural number. -/
def natOfDigits (ds : Str) : ℕ :=
  ds.foldl (fun a c => 10 * a + (c.toNat - '0'.toNat)) 0

/-- Python float() on the captured group (digits with at most one dot). -/
def parseFloatQ (cs : Str) : Option ℚ :=
  let ip := cs.takeWhile Char.isDigit
  match cs.drop ip.length with
  | [] => if ip.isEmpty then none else some (natOfDigits ip)
  | '.' :: frac =>
      if frac.all Char.isDigit && !(ip.isEmpty && frac.isEmpty) then
        some ((natOfDigits ip : ℚ) + (natOfDigits frac : ℚ) / (10 : ℚ) ^ frac.length)
      else none
  | _ => none

/-- float(m.group(1).replace(",","")) guarded by the try/except. -/
def groupValue (g : Str) : Option ℚ :=
  parseFloatQ (g.filter (fun c => !(c == ',')))

/-- extract_price: the three patterns in priority order; a match whose float
conversion fails falls through to the next pattern; no match yields none. -/
def extract_price (t : Str) : Option ℚ :=
  match (searchWith matchPoundAt t).bind groupValue with
  | some v => some v
  | none =>
      match (searchWith matchFromAt t).bind groupValue with
      | some v => some v
      | none => (searchWith matchForOnlyAt t).bind groupValue

/-! ## guess_iata -/

/-- Python meta["city"].split(" → ")[0]: the city text before the arrow. -/
def arrowHead : Str → Str
  | [] => []
  | c :: rest => if isPre (strL " → ") (c :: rest) then [] else c :: arrowHead rest

/-- The catalog scan of guess_iata: first entry whose code occurs verbatim in
the text or whose (arrow-trimmed) city occurs case-insensitively. -/
def findCatalogMatch (t : Str) : Option Str :=
  (DEST_META.find? fun p =>
      isSub p.1 t || isSub (toLowerL (arrowHead p.2.city)) (toLowerL t)).map (fun p => p.1)

/-- Word characters for the regex word-boundary. -/
def isWordChar (c : Char) : Bool := c.isAlphanum || c == '_'

def isUpperAZ (c : Char) : Bool := 'A' ≤ c && c ≤ 'Z'

/-- The IATA regex at one position: three consecutive uppercase letters with a
word boundary on each side; prev is the character before this position. -/
def iataAt (prev : Option Char) : Str → Option Str
  | c1 :: c2 :: c3 :: rest =>
      if isUpperAZ c1 && isUpperAZ c2 && isUpperAZ c3
          && (match prev with | some p => !isWordChar p | none => true)
          && (match rest with | c4 :: _ => !isWordChar c4 | [] => true)
      then some [c1, c2, c3] else none
  | _ => none

/-- Leftmost IATA-token match (re.search of the token pattern). -/
def iataScan (prev : Option Char) : Str → Option Str
  | [] => none
  | c :: rest =>
      match iataAt prev (c :: rest) with
      | some tok => some tok
      | none => iataScan (some c) rest

def iataSearch (t : Str) : Option Str := iataScan none t

/-- All IATA-token matches in scan order (analysis helper, not source code:
used to express which tokens the fallback scan could have seen). -/
def iataScanAll (prev : Option Char) : Str → List Str
  | [] => []
  | c :: rest =>
      (match iataAt prev (c :: rest) with | some tok => [tok] | none => []) ++
        iataScanAll (some c) rest

def iataTokens (t : Str) : List Str := iataScanAll none t

/-- guess_iata: catalog entries first, then the generic uppercase-token
fallback filtered against the London departure codes. -/
def guess_iata (t : Str) : Option Str :=
  match findCatalogMatch t with
  | some code => some code
  | none =>
      match iataSearch t with
      | some tok => if LONDON_CODES.contains tok then none else some tok
      | none => none

/-! ## Scorer -/

/-- Weight configuration (the sidebar sliders), one immutable value per run. -/
structure Weights where
  price_w : ℚ
  accom_w : ℚ
  nonstop_bonus : ℚ
  stop_penalty : ℚ
  time_penalty : ℚ
  transfer_penalty : ℚ
  walk_bonus : ℚ
  baggage_bonus : ℚ
deriving DecidableEq

/-- Round-half-to-even to an integer (the idealization of Python round()). -/
def roundHalfEven (x : ℚ) : ℤ :=
  let f := ⌊x⌋
  let r := x - (f : ℚ)
  if r < 1 / 2 then f
  else if 1 / 2 < r then f + 1
  else if f % 2 = 0 then f else f + 1

/-- round(x, 2): two decimal places. -/
def round2 (x : ℚ) : ℚ := (roundHalfEven (x * 100) : ℚ) / 100

/-- A canonical listing row as built by the module-level parse loop. -/
structure Row where
  source : Str
  title : Str
  url : Str
  iata : Option Str
  city : Option Str
  country : Option Str
  hours : ℚ
  transfer_mins : ℚ
  walk : ℚ
  areas : Option Str
  price : ℚ
  accom : ℚ
  nonstop : Bool
  baggage : ℚ
deriving DecidableEq

/-- score_row: weighted additive formula, rounded to two decimals.  The
truthiness tests of the Python row.get calls become explicit conditionals. -/
def score_row (w : Weights) (row : Row) : ℚ :=
  let base : ℚ := 100
  let price_pen := row.price / 10 * w.price_w
  let accom_pen := row.accom / 10 * w.accom_w
  let transfer_pen := row.transfer_mins * w.transfer_penalty
  let time_pen := row.hours * w.time_penalty
  let stops_pen := (if row.nonstop then (0 : ℚ) else 1) * w.stop_penalty
  let baggage : ℚ := if row.baggage = 0 then 0 else 1
  round2 (base - price_pen - accom_pen - transfer_pen - time_pen - stops_pen
    + w.nonstop_bonus + row.walk * w.walk_bonus + baggage * w.baggage_bonus)

/-! ## Listing normalizer (the module-level parse loop) -/

structure Raw where
  title : Str
  url : Str
deriving DecidableEq

/-- Python x or None on an optional float (0.0 is falsy). -/
def pyOrNoneQ : Option ℚ → Option ℚ
  | none => none
  | some v => if v = 0 then none else some v

/-- Python x or default on an optional float (None and 0.0 both yield the
default). -/
def pyOrQ (o : Option ℚ) (d : ℚ) : ℚ :=
  match o with
  | none => d
  | some v => if v = 0 then d else v

/-- Lines 236-240 of the source: the nonstop flag as assigned by the loop
(both branches of the conditional assign True). -/
def nonstop_flag (nonstop_only : Bool) (title : Str) : Bool :=
  let tl := toLowerL title
  let saysNonstop := isSub (strL "non-stop") tl || isSub (strL "nonstop") tl
  if nonstop_only && !saysNonstop then true
  else if saysNonstop then true else true

/-- One iteration of the parse loop: none means the continue branch dropped
the listing at the max-hours filter. -/
def parseRow (item : Raw) (max_hours : ℚ) (nonstop_only : Bool) : Option Row :=
  let title := item.title
  let price := pyOrNoneQ (extract_price title)
  let code := guess_iata title
  let meta := code.bind fun c => List.lookup c DEST_META
  let hours : Option ℚ := code.map estimate_flight_hours
  if (match hours with | some h => decide (max_hours < h) | none => false) then none
  else some
    { source := strL "Fly4Free/SecretFlying"
      title := title
      url := item.url
      iata := code
      city := meta.map (fun m => m.city)
      country := meta.map (fun m => m.country)
      hours := pyOrQ hours 3
      transfer_mins := (meta.map (fun m => m.transfer_mins)).getD 35
      walk := (meta.map (fun m => m.walk)).getD 4
      areas :=
        match meta with
        | some m => if m.areas.isEmpty then none else some (List.intercalate (strL ", ") m.areas)
        | none => none
      price := pyOrQ price 120
      accom := 100
      nonstop := nonstop_flag nonstop_only title
      baggage := 0 }

/-- The whole parse loop over the aggregated raw listings. -/
def parseRows (items : List Raw) (max_hours : ℚ) (nonstop_only : Bool) : List Row :=
  items.filterMap fun it => parseRow it max_hours nonstop_only

/-! ## Ranker -/

structure ScoredRow where
  row : Row
  score : ℚ
deriving DecidableEq

/-- The scoring pass (for r in rows: r[score] = score_row(r)). -/
def scoreAll (w : Weights) (rows : List Row) : List ScoredRow :=
  rows.map fun r => ⟨r, score_row w r⟩

/-- Comparator of the stable descending sort by score. -/
def scoreGE (a b : ScoredRow) : Bool := decide (b.score ≤ a.score)

/-- sorted(rows, key score, reverse=True)[:num_results]: Python sorted is a
stable sort; with reverse=True equal keys still keep input order, which is
exactly stable mergeSort under the reflexive descending comparator. -/
def rank (rows : List ScoredRow) (num_results : ℕ) : List ScoredRow :=
  (rows.mergeSort scoreGE).take num_results

/-! ## Aggregator -/

/-- fetch_all_sources: the two adapter calls each sit in a try/except that
converts an exception into a st.warning and continues.  The adapters' network
behaviour is a parameter (their outcome), the warnings are returned. -/
def fetch_all_sources (r1 r2 : Except Str (List Raw)) : List Raw × List Str :=
  let s1 : List Raw × List Str := match r1 with | .ok l => (l, []) | .error e => ([], [e])
  let s2 : List Raw × List Str := match r2 with | .ok l => (l, []) | .error e => ([], [e])
  (s1.1 ++ s2.1, s1.2 ++ s2.2)

/-! ## Link builder (build_booking_link) and URL encoding

Python urlencode quote_plus-encodes keys and values (space becomes a plus,
ASCII alphanumerics and underscore dot hyphen tilde stay, every other
character is percent-encoded bytewise in UTF-8) and joins them with
ampersands and equal signs.  Dates are datetime.date values; addition of a
timedelta is day arithmetic on proleptic-Gregorian ordinals. -/

/-- Decimal rendering with an explicit digit budget (always ample). -/
def natCharsAux : ℕ → ℕ → Str → Str
  | 0, _, acc => acc
  | fuel + 1, n, acc =>
      if n < 10 then Nat.digitChar n :: acc
      else natCharsAux fuel (n / 10) (Nat.digitChar (n % 10) :: acc)

/-- Python str(n) for a natural number. -/
def natChars (n : ℕ) : Str := natCharsAux (n + 1) n []

/-- Zero-padded decimal of width w (the 04d / 02d format specifiers). -/
def padZ (w : ℕ) (n : ℕ) : Str :=
  List.replicate (w - (natChars n).length) '0' ++ natChars n

structure PyDate where
  year : ℕ
  month : ℕ
  day : ℕ
deriving DecidableEq

def isLeap (y : ℕ) : Bool := (y % 4 == 0 && y % 100 != 0) || y % 400 == 0

def daysInMonth (y m : ℕ) : ℕ :=
  if m == 2 then (if isLeap y then 29 else 28)
  else if m == 4 || m == 6 || m == 9 || m == 11 then 30
  else 31

def daysBeforeMonth (y m : ℕ) : ℕ :=
  (List.range (m - 1)).foldl (fun acc i => acc + daysInMonth y (i + 1)) 0

/-- date.toordinal(): day count from 0001-01-01 being 1. -/
def toOrdinal (d : PyDate) : ℕ :=
  365 * (d.year - 1) + (d.year - 1) / 4 + (d.year - 1) / 400 - (d.year - 1) / 100
    + daysBeforeMonth d.year d.month + d.day

/-- Month and day from a zero-based day of year (at most eleven steps). -/
def monthLoop (y : ℕ) : ℕ → ℕ → ℕ → ℕ × ℕ
  | 0, m, doy => (m, doy + 1)
  | fuel + 1, m, doy =>
      if doy < daysInMonth y m then (m, doy + 1)
      else monthLoop y fuel (m + 1) (doy - daysInMonth y m)

/-- date.fromordinal(): 400/100/4/1-year cycle decomposition. -/
def fromOrdinal (n : ℕ) : PyDate :=
  let n0 := n - 1
  let n400 := n0 / 146097
  let r1 := n0 % 146097
  let n100 := min (r1 / 36524) 3
  let r2 := r1 - n100 * 36524
  let n4 := r2 / 1461
  let r3 := r2 % 1461
  let n1 := min (r3 / 365) 3
  let r4 := r3 - n1 * 365
  let y := 400 * n400 + 100 * n100 + 4 * n4 + n1 + 1
  let md := monthLoop y 11 1 r4
  ⟨y, md.1, md.2⟩

/-- date + timedelta(days=k). -/
def addDays (d : PyDate) (k : ℕ) : PyDate := fromOrdinal (toOrdinal d + k)

/-- date.isoformat(): YYYY-MM-DD. -/
def isoformat (d : PyDate) : Str :=
  padZ 4 d.year ++ '-' :: padZ 2 d.month ++ '-' :: padZ 2 d.day

/-- Characters quote_plus leaves unescaped. -/
def isSafeChar (c : Char) : Bool :=
  c.isAlphanum || c == '_' || c == '.' || c == '-' || c == '~'

/-- Uppercase hex digit of a value below sixteen. -/
def hexUp (n : ℕ) : Char :=
  if n < 10 then Char.ofNat ('0'.toNat + n) else Char.ofNat ('A'.toNat + (n - 10))

/-- UTF-8 bytes of one character. -/
def utf8Bytes (c : Char) : List ℕ :=
  let n := c.toNat
  if n < 128 then [n]
  else if n < 2048 then [192 + n / 64, 128 + n % 64]
  else if n < 65536 then [224 + n / 4096, 128 + (n / 64) % 64, 128 + n % 64]
  else [240 + n / 262144, 128 + (n / 4096) % 64, 128 + (n / 64) % 64, 128 + n % 64]

/-- quote_plus on one character. -/
def quotePlusChar (c : Char) : Str :=
  if c == ' ' then ['+']
  else if isSafeChar c then [c]
  else (utf8Bytes c).foldr (fun b acc => '%' :: hexUp (b / 16) :: hexUp (b % 16) :: acc) []

def quotePlus (s : Str) : Str := s.foldr (fun c acc => quotePlusChar c ++ acc) []

/-- The ampersand join inside urlencode. -/
def joinAmp : List Str → Str
  | [] => []
  | [p] => p
  | p :: q :: rest => p ++ '&' :: joinAmp (q :: rest)

/-- urllib.parse.urlencode on an ordered parameter list. -/
def urlencode (ps : List (Str × Str)) : Str :=
  joinAmp (ps.map fun p => quotePlus p.1 ++ '=' :: quotePlus p.2)

/-- build_booking_link: the ss parameter is the city, a space and the area
hint (empty when absent); with a start date the stay window and fixed party
size are appended in insertion order. -/
def build_booking_link (city : Str) (start_date : Option PyDate) (nights : ℕ)
    (area : Option Str) : Str :=
  let params : List (Str × Str) := [(strL "ss", city ++ ' ' :: (area.getD []))]
  let params :=
    match start_date with
    | some sd =>
        params ++
          [ (strL "checkin", isoformat sd)
          , (strL "checkout", isoformat (addDays sd nights))
          , (strL "group_adults", natChars 2)
          , (strL "group_children", natChars 2)
          , (strL "no_rooms", natChars 1) ]
    | none => params
  strL "https://www.booking.com/searchresults.html?" ++ urlencode params

/-! ### URL decoding (the observation side of the round-trip claim) -/

def hexVal (c : Char) : ℕ :=
  if '0' ≤ c && c ≤ '9' then c.toNat - '0'.toNat
  else if 'A' ≤ c && c ≤ 'F' then c.toNat - 'A'.toNat + 10
  else if 'a' ≤ c && c ≤ 'f' then c.toNat - 'a'.toNat + 10
  else 0

/-- Standard application/x-www-form-urlencoded decoding over the ASCII
range: plus becomes space, a percent and two hex digits become the coded
byte, everything else stands for itself. -/
def unquotePlus : Str → Str
  | [] => []
  | c :: rest =>
      if c == '+' then ' ' :: unquotePlus rest
      else if c == '%' then
        match rest with
        | h1 :: h2 :: rest2 => Char.ofNat (16 * hexVal h1 + hexVal h2) :: unquotePlus rest2
        | [] => [c]
        | [h1] => [c, h1]
      else c :: unquotePlus rest

/-- Split on a separator character. -/
def splitOnChar (sep : Char) : Str → List Str
  | [] => [[]]
  | c :: rest =>
      if c == sep then [] :: splitOnChar sep rest
      else
        match splitOnChar sep rest with
        | [] => [[c]]
        | s :: ss => (c :: s) :: ss

/-- The query string of a URL: everything after the first question mark. -/
def queryString (url : Str) : Str :=
  (url.dropWhile (fun c => !(c == '?'))).drop 1

/-- Decode a query string into its key-value pairs. -/
def decodeParams (q : Str) : List (Str × Str) :=
  (splitOnChar '&' q).map fun kv =>
    ( unquotePlus (kv.takeWhile (fun c => !(c == '=')))
    , unquotePlus ((kv.dropWhile (fun c => !(c == '='))).drop 1) )

/-- The decoded value of one query parameter. -/
def lookupParam (k : Str) (q : Str) : Option Str :=
  List.lookup k (decodeParams q)

/-! # Helper lemmas -/

theorem takeWhile_all {p : Char → Bool} : ∀ (l : Str), (∀ c ∈ l, p c = true) → l.takeWhile p = l
  | [], _ => rfl
  | c :: l, h => by
      rw [List.takeWhile_cons_of_pos (h c (List.mem_cons_self ..))]
      rw [takeWhile_all l fun x hx => h x (List.mem_cons_of_mem _ hx)]

theorem matchCI_sublist : ∀ (p cs r : Str), matchCI p cs = some r → List.Sublist r cs
  | [], cs, r, h => by
      rw [matchCI] at h
      cases h
      exact List.Sublist.refl cs
  | _ :: _, [], r, h => by rw [matchCI] at h; cases h
  | p :: ps, c :: cs, r, h => by
      by_cases hc : (c.toLower == p) = true
      · rw [matchCI, if_pos hc] at h
        exact (matchCI_sublist ps cs r h).cons c
      · rw [matchCI, if_neg hc] at h
        cases h

theorem matchPoundAt_pound : ∀ {s g : Str}, matchPoundAt s = some g → '£' ∈ s := by
  intro s g h
  match s with
  | [] => rw [matchPoundAt] at h; cases h
  | c0 :: rest =>
      by_cases hc : (c0 == '£') = true
      · have hc2 : c0 = '£' := by simpa using hc
        subst hc2
        exact List.mem_cons_self ..
      · rw [matchPoundAt, if_neg hc] at h
        cases h

theorem matchPoundAt_cons_ne {c0 : Char} {rest : Str} (hc : (c0 == '£') = false) :
    matchPoundAt (c0 :: rest) = none := by
  rw [matchPoundAt, hc]
  rfl

theorem matchFromAt_pound {s g : Str} (h : matchFromAt s = some g) : '£' ∈ s := by
  unfold matchFromAt at h
  cases hci : matchCI (strL "from") s with
  | none => rw [hci] at h; cases h
  | some r =>
      rw [hci] at h
      simp only [Option.bind] at h
      have h1 := matchPoundAt_pound h
      have h2 : '£' ∈ r := (List.dropWhile_sublist _).subset h1
      exact (matchCI_sublist _ _ _ hci).subset h2

theorem matchForOnlyAt_pound {s g : Str} (h : matchForOnlyAt s = some g) : '£' ∈ s := by
  unfold matchForOnlyAt at h
  cases hci : matchCI (strL "for") s with
  | none => rw [hci] at h; cases h
  | some r1 =>
      rw [hci] at h
      simp only [Option.bind] at h
      cases hci2 : matchCI (strL "only") (r1.dropWhile isSpaceC) with
      | none => rw [hci2] at h; cases h
      | some r2 =>
          rw [hci2] at h
          have h1 := matchPoundAt_pound h
          have h2 : '£' ∈ r2 := (List.dropWhile_sublist _).subset h1
          have h3 : '£' ∈ r1.dropWhile isSpaceC := (matchCI_sublist _ _ _ hci2).subset h2
          have h4 : '£' ∈ r1 := (List.dropWhile_sublist _).subset h3
          exact (matchCI_sublist _ _ _ hci).subset h4

theorem searchWith_some {m : Str → Option Str} :
    ∀ {t g : Str}, searchWith m t = some g → ∃ s : Str, List.Sublist s t ∧ m s = some g := by
  intro t
  induction t with
  | nil => intro g h; rw [searchWith] at h; cases h
  | cons c rest ih =>
      intro g h
      rw [searchWith] at h
      cases hm : m (c :: rest) with
      | some g2 =>
          rw [hm] at h
          cases h
          exact ⟨c :: rest, List.Sublist.refl _, hm⟩
      | none =>
          rw [hm] at h
          obtain ⟨s, hs, hms⟩ := ih h
          exact ⟨s, hs.cons c, hms⟩

theorem searchPound_append (a t : Str) (ha : '£' ∉ a) :
    searchWith matchPoundAt (a ++ t) = searchWith matchPoundAt t := by
  induction a with
  | nil => rfl
  | cons c a ih =>
      have ha2 : '£' ∉ a := fun hmem => ha (List.mem_cons_of_mem _ hmem)
      have hc : (c == '£') = false := by
        simp only [beq_eq_false_iff_ne, ne_eq]
        intro hh
        exact ha (hh ▸ List.mem_cons_self ..)
      rw [List.cons_append, searchWith, matchPoundAt_cons_ne hc]
      exact ih ha2

theorem matchNum_exact (n b : Str) (hn : n ≠ []) (hdig : ∀ c ∈ n, c.isDigit = true)
    (hb : ∀ c, b.head? = some c → c.isDigit = false ∧ ¬ c = '.' ∧ ¬ c = ',') :
    matchNum (n ++ b) = some n := by
  have htw : (n ++ b).takeWhile Char.isDigit = n := by
    rw [List.takeWhile_append_of_pos hdig]
    cases b with
    | nil => simp
    | cons c bs =>
        rw [List.takeWhile_cons_of_neg (by simp [(hb c rfl).1])]
        simp
  simp only [matchNum, htw]
  have hne : n.isEmpty = false := by cases n with | nil => exact absurd rfl hn | cons x xs => rfl
  rw [hne]
  simp only [Bool.false_eq_true, if_false, List.drop_left]
  cases b with
  | nil => rfl
  | cons c bs =>
      have h2 := hb c rfl
      have hcond : (c == '.' || c == ',') = false := by
        simp only [Bool.or_eq_false_iff, beq_eq_false_iff_ne, ne_eq]
        exact ⟨h2.2.1, h2.2.2⟩
      simp only [hcond, Bool.false_eq_true, if_false]

theorem groupValue_digits (n : Str) (hn : n ≠ []) (hdig : ∀ c ∈ n, c.isDigit = true) :
    groupValue n = some (natOfDigits n) := by
  unfold groupValue
  have hfil : n.filter (fun c => !(c == ',')) = n := by
    rw [List.filter_eq_self]
    intro c hc
    have hd := hdig c hc
    simp only [Bool.not_eq_eq_eq_not, Bool.not_true, beq_eq_false_iff_ne, ne_eq]
    intro hcc
    rw [hcc] at hd
    exact absurd hd (by decide)
  rw [hfil]
  unfold parseFloatQ
  have htw : n.takeWhile Char.isDigit = n := takeWhile_all n hdig
  have hne : n.isEmpty = false := by cases n with | nil => exact absurd rfl hn | cons x xs => rfl
  simp only [htw, List.drop_length, hne]
  rfl

theorem extract_price_of_first {t g : Str} {v : ℚ} (hs : searchWith matchPoundAt t = some g)
    (hg : groupValue g = some v) : extract_price t = some v := by
  unfold extract_price
  rw [hs]
  simp only [Option.bind, hg]

theorem extract_price_at (a n b : Str) (ha : '£' ∉ a) (hn : n ≠ [])
    (hdig : ∀ c ∈ n, c.isDigit = true)
    (hb : ∀ c, b.head? = some c → c.isDigit = false ∧ ¬ c = '.' ∧ ¬ c = ',') :
    extract_price (a ++ '£' :: (n ++ b)) = some (natOfDigits n) := by
  have hmp : matchPoundAt ('£' :: (n ++ b)) = some n := by
    rw [matchPoundAt, if_pos (by decide)]
    cases n with
    | nil => exact absurd rfl hn
    | cons d n2 =>
        have hd : d.isDigit = true := hdig d (List.mem_cons_self ..)
        rw [List.cons_append, matchPoundRest, if_pos hd, ← List.cons_append]
        exact matchNum_exact (d :: n2) b hn hdig hb
  have hsearch : searchWith matchPoundAt (a ++ '£' :: (n ++ b)) = some n := by
    rw [searchPound_append a _ ha, searchWith, hmp]
  exact extract_price_of_first hsearch (groupValue_digits n hn hdig)

theorem extract_price_no_pound (t : Str) (ht : '£' ∉ t) : extract_price t = none := by
  have h1 : searchWith matchPoundAt t = none := by
    cases h : searchWith matchPoundAt t with
    | none => rfl
    | some g =>
        obtain ⟨s, hs, hm⟩ := searchWith_some h
        exact absurd (hs.subset (matchPoundAt_pound hm)) ht
  have h2 : searchWith matchFromAt t = none := by
    cases h : searchWith matchFromAt t with
    | none => rfl
    | some g =>
        obtain ⟨s, hs, hm⟩ := searchWith_some h
        exact absurd (hs.subset (matchFromAt_pound hm)) ht
  have h3 : searchWith matchForOnlyAt t = none := by
    cases h : searchWith matchForOnlyAt t with
    | none => rfl
    | some g =>
        obtain ⟨s, hs, hm⟩ := searchWith_some h
        exact absurd (hs.subset (matchForOnlyAt_pound hm)) ht
  simp [extract_price, h1, h2, h3, Option.bind]

/-- Claim C8: a text containing a pound sign followed by a number, with no
other pound sign before it and the number properly delimited, extracts to
exactly that number; a text with no pound sign at all extracts to none (a
true absent value, not a sentinel, and the function is total so it cannot
raise); thousands separators inside the matched group are stripped. -/
theorem claim_C8 :
    (∀ a n b : Str, '£' ∉ a → n ≠ [] → (∀ c ∈ n, c.isDigit = true) →
      (∀ c, b.head? = some c → c.isDigit = false ∧ ¬ c = '.' ∧ ¬ c = ',') →
      extract_price (a ++ '£' :: (n ++ b)) = some (natOfDigits n))
  ∧ (∀ t : Str, '£' ∉ t → extract_price t = none)
  ∧ extract_price (strL "£1,999 return") = some 1999 :=
  ⟨extract_price_at, extract_price_no_pound, by decide⟩

/-- Witness for claim C8 at concrete inputs. -/
theorem claim_C8_witness :
    extract_price (strL "deal " ++ '£' :: (strL "46" ++ strL " ret")) = some (natOfDigits (strL "46"))
  ∧ extract_price (strL "no price here") = none :=
  ⟨claim_C8.1 (strL "deal ") (strL "46") (strL " ret") (by decide) (by decide) (by decide)
      (by intro c hc; cases hc; exact ⟨by decide, by decide, by decide⟩),
    claim_C8.2.1 (strL "no price here") (by decide)⟩

/-! # The normalizer claims -/

theorem lookup_pos_aux (c : Str) : ∀ (tbl : List (Str × ℚ)), (∀ p ∈ tbl, 0 < p.2) →
    ∀ v, List.lookup c tbl = some v → 0 < v
  | [], _, v, hv => by rw [List.lookup_nil] at hv; cases hv
  | (k, b) :: tl, h, v, hv => by
      rw [List.lookup_cons] at hv
      cases hkc : (c == k) with
      | true =>
          rw [hkc] at hv
          injection hv with h2
          exact h2 ▸ h (k, b) (List.mem_cons_self ..)
      | false =>
          rw [hkc] at hv
          exact lookup_pos_aux c tl (fun p hp => h p (List.mem_cons_of_mem _ hp)) v hv

theorem estimate_flight_hours_pos (c : Str) : 0 < estimate_flight_hours c := by
  unfold estimate_flight_hours
  cases hl : List.lookup c HOURS_TABLE with
  | none => norm_num
  | some v =>
      have hpos : ∀ p ∈ HOURS_TABLE, 0 < p.2 := by
        intro p hp
        fin_cases hp <;> norm_num
      have hv := lookup_pos_aux c HOURS_TABLE hpos v hl
      simpa using hv

/-- The parse-loop iteration when the destination code is unresolved: the
max-hours filter is skipped and the defaults fill the row. -/
theorem parseRow_eq_none_code (item : Raw) (mh : ℚ) (toggle : Bool)
    (hc : guess_iata item.title = none) :
    parseRow item mh toggle = some
      { source := strL "Fly4Free/SecretFlying"
        title := item.title
        url := item.url
        iata := none
        city := none
        country := none
        hours := 3
        transfer_mins := 35
        walk := 4
        areas := none
        price := pyOrQ (pyOrNoneQ (extract_price item.title)) 120
        accom := 100
        nonstop := nonstop_flag toggle item.title
        baggage := 0 } := by
  simp only [parseRow, hc]
  rfl

/-- The parse-loop iteration when the code resolved and the estimate passes
the filter. -/
theorem parseRow_eq_some_code (item : Raw) (mh : ℚ) (toggle : Bool) (c : Str)
    (hc : guess_iata item.title = some c)
    (hh : ¬ mh < estimate_flight_hours c) :
    parseRow item mh toggle = some
      { source := strL "Fly4Free/SecretFlying"
        title := item.title
        url := item.url
        iata := some c
        city := (List.lookup c DEST_META).map (fun m => m.city)
        country := (List.lookup c DEST_META).map (fun m => m.country)
        hours := pyOrQ (some (estimate_flight_hours c)) 3
        transfer_mins := ((List.lookup c DEST_META).map (fun m => m.transfer_mins)).getD 35
        walk := ((List.lookup c DEST_META).map (fun m => m.walk)).getD 4
        areas :=
          match (List.lookup c DEST_META) with
          | some m => if m.areas.isEmpty then none else some (List.intercalate (strL ", ") m.areas)
          | none => none
        price := pyOrQ (pyOrNoneQ (extract_price item.title)) 120
        accom := 100
        nonstop := nonstop_flag toggle item.title
        baggage := 0 } := by
  simp only [parseRow, hc]
  split
  · next hcond => exact absurd (of_decide_eq_true hcond) hh
  · rfl

/-- The parse-loop iteration when the code resolved and the estimate exceeds
the filter: the listing is dropped. -/
theorem parseRow_drop (item : Raw) (mh : ℚ) (toggle : Bool) (c : Str)
    (hc : guess_iata item.title = some c)
    (hh : mh < estimate_flight_hours c) :
    parseRow item mh toggle = none := by
  simp only [parseRow, hc]
  split
  · rfl
  · next hcond => exact absurd (decide_eq_true hh) hcond

theorem nonstop_flag_true (toggle : Bool) (title : Str) : nonstop_flag toggle title = true := by
  simp only [nonstop_flag]
  split
  · rfl
  · split <;> rfl

/-- Claim C1 (amended): the max-hours filter invariant holds exactly for the
listings whose destination code was resolved; a listing with an unresolved
code skips the filter and its hours default to 3, which can exceed the
configured maximum. -/
theorem claim_C1_amended (item : Raw) (mh : ℚ) (toggle : Bool) (row : Row)
    (h : parseRow item mh toggle = some row) :
    (row.iata ≠ none → row.hours ≤ mh) ∧ (row.iata = none → row.hours = 3) := by
  cases hc : guess_iata item.title with
  | none =>
      rw [parseRow_eq_none_code item mh toggle hc, Option.some.injEq] at h
      subst h
      exact ⟨fun hne => absurd rfl hne, fun _ => rfl⟩
  | some c =>
      by_cases hh : mh < estimate_flight_hours c
      · rw [parseRow_drop item mh toggle c hc hh] at h
        cases h
      · rw [parseRow_eq_some_code item mh toggle c hc hh, Option.some.injEq] at h
        subst h
        constructor
        · intro _
          show pyOrQ (some (estimate_flight_hours c)) 3 ≤ mh
          have hne0 : ¬ estimate_flight_hours c = 0 :=
            ne_of_gt (estimate_flight_hours_pos c)
          simp only [pyOrQ, if_neg hne0]
          exact le_of_not_lt hh
        · intro habs
          exact Option.noConfusion habs

/-- Claim C1 counterexample: with maxHoursFilter 2.0, a listing whose
destination code cannot be resolved survives the normalizer with the default
3.0 outbound hours, which exceeds the filter. -/
theorem claim_C1_counterexample :
    (parseRow ⟨strL "deal", strL "u"⟩ 2 true).map (fun r => r.hours) = some 3
  ∧ ¬ ((3 : ℚ) ≤ 2) :=
  ⟨by decide, by norm_num⟩

/-- Witness for the amended claim C1 at a concrete unresolved-code listing. -/
theorem claim_C1_witness :
    (⟨strL "Fly4Free/SecretFlying", strL "deal", strL "u", none, none, none,
        3, 35, 4, none, 120, 100, true, 0⟩ : Row).hours = 3 :=
  (claim_C1_amended ⟨strL "deal", strL "u"⟩ 5 true
      ⟨strL "Fly4Free/SecretFlying", strL "deal", strL "u", none, none, none,
        3, 35, 4, none, 120, 100, true, 0⟩
      (by decide)).2 rfl

/-- Claim C2: the normalizer resolves the nonstop flag to true for every
title and toggle state (both branches of the conditional assign True);
consequently every parsed row has nonstop true, the per-stop penalty term
contributes zero to its score, and the nonstop bonus is added
unconditionally: the score is the full formula with the stop term gone and
the bonus present. -/
theorem claim_C2 :
    (∀ (toggle : Bool) (title : Str), nonstop_flag toggle title = true)
  ∧ (∀ (item : Raw) (mh : ℚ) (toggle : Bool) (row : Row),
      parseRow item mh toggle = some row → row.nonstop = true)
  ∧ (∀ (w : Weights) (row : Row), row.nonstop = true →
      (if row.nonstop then (0 : ℚ) else 1) * w.stop_penalty = 0
    ∧ score_row w row = round2 (100 - row.price / 10 * w.price_w - row.accom / 10 * w.accom_w
        - row.transfer_mins * w.transfer_penalty - row.hours * w.time_penalty
        + w.nonstop_bonus + row.walk * w.walk_bonus
        + (if row.baggage = 0 then (0 : ℚ) else 1) * w.baggage_bonus)) := by
  refine ⟨nonstop_flag_true, ?_, ?_⟩
  · intro item mh toggle row h
    cases hc : guess_iata item.title with
    | none =>
        rw [parseRow_eq_none_code item mh toggle hc, Option.some.injEq] at h
        subst h
        exact nonstop_flag_true toggle item.title
    | some c =>
        by_cases hh : mh < estimate_flight_hours c
        · rw [parseRow_drop item mh toggle c hc hh] at h
          cases h
        · rw [parseRow_eq_some_code item mh toggle c hc hh, Option.some.injEq] at h
          subst h
          exact nonstop_flag_true toggle item.title
  · intro w row hns
    have hstop : (if row.nonstop then (0 : ℚ) else 1) * w.stop_penalty = 0 := by
      rw [hns, if_pos rfl, zero_mul]
    refine ⟨hstop, ?_⟩
    simp only [score_row, hstop]
    congr 1
    ring

/-- Witness for claim C2 at concrete inputs. -/
theorem claim_C2_witness :
    nonstop_flag true (strL "cheap deal") = true
  ∧ (⟨strL "Fly4Free/SecretFlying", strL "deal", strL "u", none, none, none,
        3, 35, 4, none, 120, 100, true, 0⟩ : Row).nonstop = true
  ∧ (if (⟨strL "Fly4Free/SecretFlying", strL "deal", strL "u", none, none, none,
        3, 35, 4, none, 120, 100, true, 0⟩ : Row).nonstop then (0 : ℚ) else 1)
      * (⟨1, 1, 15, 10, 2, 1, 2, 5⟩ : Weights).stop_penalty = 0 :=
  ⟨claim_C2.1 true (strL "cheap deal"),
   claim_C2.2.1 ⟨strL "deal", strL "u"⟩ 5 true
      ⟨strL "Fly4Free/SecretFlying", strL "deal", strL "u", none, none, none,
        3, 35, 4, none, 120, 100, true, 0⟩ (by decide),
   (claim_C2.2.2 ⟨1, 1, 15, 10, 2, 1, 2, 5⟩
      ⟨strL "Fly4Free/SecretFlying", strL "deal", strL "u", none, none, none,
        3, 35, 4, none, 120, 100, true, 0⟩ rfl).1⟩

/-- Claim C3 counterexample: on the scenario title the catalog city string
(Funchal (Madeira)) does not occur in the title and the title has no
three-letter uppercase token, so guess_iata resolves nothing: the claimed
destination code FNC and outbound hours 4.0 are not produced. -/
theorem claim_C3_counterexample :
    guess_iata (strL "London to Funchal for £46 return, non-stop") ≠ some (strL "FNC")
  ∧ (parseRow ⟨strL "London to Funchal for £46 return, non-stop", strL "u"⟩ 5 true).map
      (fun r => r.hours) ≠ some 4 := by
  exact ⟨by decide, by decide⟩

/-- Claim C3 (amended): on the scenario title the pipeline extracts price
46.0 and sets isNonstop true, but resolves no destination code, so the
outbound hours take the default 3.0. -/
theorem claim_C3_amended :
    extract_price (strL "London to Funchal for £46 return, non-stop") = some 46
  ∧ guess_iata (strL "London to Funchal for £46 return, non-stop") = none
  ∧ parseRow ⟨strL "London to Funchal for £46 return, non-stop", strL "u"⟩ 5 true = some
      ⟨strL "Fly4Free/SecretFlying", strL "London to Funchal for £46 return, non-stop", strL "u",
        none, none, none, 3, 35, 4, none, 46, 100, true, 0⟩ :=
  ⟨by decide, by decide, by decide⟩

/-- Claim C4 counterexample: in the text LGW ABC no catalog entry matches and
the non-departure token ABC occurs, yet guess_iata returns none because the
fallback inspects only the first regex match, which is the departure code
LGW. -/
theorem claim_C4_counterexample :
    findCatalogMatch (strL "LGW ABC") = none
  ∧ iataTokens (strL "LGW ABC") = [strL "LGW", strL "ABC"]
  ∧ (strL "ABC") ∉ LONDON_CODES
  ∧ guess_iata (strL "LGW ABC") = none := by
  decide

/-- Claim C4 (amended): when no catalog entry matches, guess_iata inspects
only the first three-uppercase-letter token: it returns that token when it is
not a London departure code and absent otherwise — a departure code occurring
first hides every later token. -/
theorem claim_C4_amended :
    (∀ t tok : Str, findCatalogMatch t = none → iataSearch t = some tok →
      guess_iata t = if LONDON_CODES.contains tok then none else some tok)
  ∧ (∀ t : Str, findCatalogMatch t = none → iataSearch t = none → guess_iata t = none) := by
  constructor
  · intro t tok h1 h2
    simp only [guess_iata, h1, h2]
  · intro t h1 h2
    simp only [guess_iata, h1, h2]

/-- Witness for the amended claim C4 at concrete texts. -/
theorem claim_C4_witness :
    guess_iata (strL "XYZ deal")
      = (if LONDON_CODES.contains (strL "XYZ") then none else some (strL "XYZ"))
  ∧ guess_iata (strL "no caps") = none :=
  ⟨claim_C4_amended.1 (strL "XYZ deal") (strL "XYZ") (by decide) (by decide),
   claim_C4_amended.2 (strL "no caps") (by decide) (by decide)⟩

/-- Claim C10: a title whose extracted price is 0.0 is treated like an
extraction failure (0.0 is falsy): the canonical price falls back to the
default 120.0; the price field is never 0 at the Scorer, and an extracted
value is kept only when nonzero. -/
theorem claim_C10 (item : Raw) (mh : ℚ) (toggle : Bool) (row : Row)
    (h : parseRow item mh toggle = some row) :
    (extract_price item.title = some 0 → row.price = 120)
  ∧ (extract_price item.title = none → row.price = 120)
  ∧ ¬ row.price = 0
  ∧ (∀ v : ℚ, extract_price item.title = some v → ¬ v = 0 → row.price = v) := by
  have hp : row.price = pyOrQ (pyOrNoneQ (extract_price item.title)) 120 := by
    cases hc : guess_iata item.title with
    | none =>
        rw [parseRow_eq_none_code item mh toggle hc, Option.some.injEq] at h
        subst h
        rfl
    | some c =>
        by_cases hh : mh < estimate_flight_hours c
        · rw [parseRow_drop item mh toggle c hc hh] at h
          cases h
        · rw [parseRow_eq_some_code item mh toggle c hc hh, Option.some.injEq] at h
          subst h
          rfl
  refine ⟨?_, ?_, ?_, ?_⟩
  · intro he
    rw [hp, he]
    simp [pyOrNoneQ, pyOrQ]
  · intro he
    rw [hp, he]
    rfl
  · rw [hp]
    cases he : extract_price item.title with
    | none => norm_num [pyOrNoneQ, pyOrQ]
    | some v =>
        by_cases hv : v = 0
        · subst hv
          norm_num [pyOrNoneQ, pyOrQ]
        · simp only [pyOrNoneQ, pyOrQ, if_neg hv]
          exact hv
  · intro v he hv
    rw [hp, he]
    simp only [pyOrNoneQ, pyOrQ, if_neg hv]

/-- Witness for claim C10 at a title containing a zero price. -/
theorem claim_C10_witness :
    extract_price (strL "£0 deal") = some 0
  ∧ (⟨strL "Fly4Free/SecretFlying", strL "£0 deal", strL "u", none, none, none,
        3, 35, 4, none, 120, 100, true, 0⟩ : Row).price = 120 :=
  ⟨by decide,
   (claim_C10 ⟨strL "£0 deal", strL "u"⟩ 5 true
      ⟨strL "Fly4Free/SecretFlying", strL "£0 deal", strL "u", none, none, none,
        3, 35, 4, none, 120, 100, true, 0⟩
      (by decide)).1 (by decide)⟩

/-! # The scorer claim -/

theorem roundHalfEven_intCast (z : ℤ) : roundHalfEven ((z : ℚ)) = z := by
  simp only [roundHalfEven, Int.floor_intCast]
  norm_num

theorem round2_eq_int (x : ℚ) (z : ℤ) (h : x = (z : ℚ)) : round2 x = (z : ℚ) := by
  subst h
  unfold round2
  have h1 : (z : ℚ) * 100 = ((z * 100 : ℤ) : ℚ) := by push_cast; ring
  rw [h1, roundHalfEven_intCast]
  push_cast
  field_simp

/-- The scoring formula exactly as the specification words it, for the
refinement comparison with score_row. -/
def scoreFormulaSpec (w : Weights) (row : Row) : ℚ :=
  round2 (100 - row.price / 10 * w.price_w - row.accom / 10 * w.accom_w
    - row.transfer_mins * w.transfer_penalty - row.hours * w.time_penalty
    - (if row.nonstop then (0 : ℚ) else 1) * w.stop_penalty
    + w.nonstop_bonus + row.walk * w.walk_bonus
    + (if row.baggage = 0 then (0 : ℚ) else 1) * w.baggage_bonus)

/-- Claim C5: score_row computes exactly the specified formula, rounded to
two decimals, and applies no clamping: scores below 0 and above 100 both
occur. -/
theorem claim_C5 :
    (∀ (w : Weights) (row : Row), score_row w row = scoreFormulaSpec w row)
  ∧ (∃ (w : Weights) (row : Row), score_row w row < 0)
  ∧ (∃ (w : Weights) (row : Row), 100 < score_row w row) := by
  refine ⟨fun w row => rfl, ?_, ?_⟩
  · refine ⟨⟨1, 0, 0, 0, 0, 0, 0, 0⟩,
      ⟨[], [], [], none, none, none, 0, 0, 0, none, 10000, 0, true, 0⟩, ?_⟩
    have h : score_row ⟨1, 0, 0, 0, 0, 0, 0, 0⟩
        ⟨[], [], [], none, none, none, 0, 0, 0, none, 10000, 0, true, 0⟩ = ((-900 : ℤ) : ℚ) := by
      simp only [score_row]
      exact round2_eq_int _ _ (by norm_num)
    rw [h]
    norm_num
  · refine ⟨⟨0, 0, 15, 0, 0, 0, 0, 0⟩,
      ⟨[], [], [], none, none, none, 0, 0, 0, none, 0, 0, true, 0⟩, ?_⟩
    have h : score_row ⟨0, 0, 15, 0, 0, 0, 0, 0⟩
        ⟨[], [], [], none, none, none, 0, 0, 0, none, 0, 0, true, 0⟩ = ((115 : ℤ) : ℚ) := by
      simp only [score_row]
      exact round2_eq_int _ _ (by norm_num)
    rw [h]
    norm_num

/-! # The ranker claim -/

theorem pairwise_of_pred {α : Type} {R : α → α → Prop} {p : α → Bool}
    (h : ∀ a b, p a = true → p b = true → R a b) :
    ∀ (l : List α), (∀ a ∈ l, p a = true) → l.Pairwise R
  | [], _ => List.Pairwise.nil
  | a :: l, hl => by
      refine List.Pairwise.cons ?_ (pairwise_of_pred h l fun x hx => hl x (List.mem_cons_of_mem _ hx))
      intro b hb
      exact h a b (hl a (List.mem_cons_self ..)) (hl b (List.mem_cons_of_mem _ hb))

theorem scoreGE_trans : ∀ a b c : ScoredRow, scoreGE a b → scoreGE b c → scoreGE a c := by
  intro a b c hab hbc
  simp only [scoreGE, decide_eq_true_eq] at hab hbc ⊢
  exact le_trans hbc hab

theorem scoreGE_total : ∀ a b : ScoredRow, scoreGE a b || scoreGE b a := by
  intro a b
  by_cases h : b.score ≤ a.score
  · simp [scoreGE, h]
  · simp [scoreGE, h, le_of_not_le h]

/-- Stability of the descending sort: the listings carrying any given score
appear in the sorted output in exactly their input order. -/
theorem mergeSort_filter_score (rows : List ScoredRow) (s : ℚ) :
    (rows.mergeSort scoreGE).filter (fun r => decide (r.score = s))
      = rows.filter (fun r => decide (r.score = s)) := by
  have hRel : ∀ a b : ScoredRow, decide (a.score = s) = true → decide (b.score = s) = true →
      scoreGE a b = true := by
    intro a b ha hb
    simp only [decide_eq_true_eq] at ha hb
    simp [scoreGE, ha, hb]
  have hpw : (rows.filter (fun r => decide (r.score = s))).Pairwise (fun a b => scoreGE a b = true) :=
    pairwise_of_pred hRel (rows.filter (fun r => decide (r.score = s)))
      (fun a ha => by simpa using (List.mem_filter.mp ha).2)
  have hsub : List.Sublist (rows.filter (fun r => decide (r.score = s))) (rows.mergeSort scoreGE) :=
    List.sublist_mergeSort scoreGE_trans scoreGE_total hpw (List.filter_sublist rows)
  have hsub2 : List.Sublist (rows.filter (fun r => decide (r.score = s)))
      ((rows.mergeSort scoreGE).filter (fun r => decide (r.score = s))) := by
    have h1 := List.Sublist.filter (fun r => decide (r.score = s)) hsub
    rw [List.filter_filter] at h1
    simpa [Bool.and_self] using h1
  have hlen : ((rows.mergeSort scoreGE).filter (fun r => decide (r.score = s))).length
      = (rows.filter (fun r => decide (r.score = s))).length :=
    ((List.mergeSort_perm rows scoreGE).filter (fun r => decide (r.score = s))).length_eq
  exact (hsub2.eq_of_length hlen.symm).symm

/-- Claim C6: the ranker is the stable descending sort by score truncated to
the first n entries: the output is sorted descending, equal-score listings
keep their input order, and the output length is at most n. -/
theorem claim_C6 (rows : List ScoredRow) (n : ℕ) :
    rank rows n = (rows.mergeSort scoreGE).take n
  ∧ (rank rows n).length ≤ n
  ∧ (rank rows n).Pairwise (fun a b => b.score ≤ a.score)
  ∧ (∀ s : ℚ, (rows.mergeSort scoreGE).filter (fun r => decide (r.score = s))
      = rows.filter (fun r => decide (r.score = s))) := by
  refine ⟨rfl, ?_, ?_, fun s => mergeSort_filter_score rows s⟩
  · rw [rank, List.length_take]
    exact Nat.min_le_left ..
  · have hs : (rows.mergeSort scoreGE).Pairwise (fun a b => scoreGE a b = true) :=
      List.sorted_mergeSort scoreGE_trans scoreGE_total rows
    have hs2 : (rows.mergeSort scoreGE).Pairwise (fun a b => b.score ≤ a.score) :=
      hs.imp (fun hab => by simpa [scoreGE] using hab)
    exact hs2.sublist (List.take_sublist n _)

/-! # The aggregator claim -/

/-- The listings a single adapter outcome contributes. -/
def okData (r : Except Str (List Raw)) : List Raw :=
  match r with | .ok l => l | .error _ => []

/-- The warning a single adapter outcome contributes. -/
def errWarn (r : Except Str (List Raw)) : List Str :=
  match r with | .ok _ => [] | .error e => [e]

/-- Claim C7: the aggregator returns the concatenation of the successful
adapters' outputs in registration order and converts each failure into one
recorded warning; in particular one failing adapter plus one adapter
returning three listings yield exactly those three listings and one warning,
and the function is total, so no exception escapes. -/
theorem claim_C7 :
    (∀ r1 r2 : Except Str (List Raw),
      fetch_all_sources r1 r2 = (okData r1 ++ okData r2, errWarn r1 ++ errWarn r2))
  ∧ (∀ (e : Str) (l : List Raw), l.length = 3 →
      (fetch_all_sources (Except.error e) (Except.ok l)).1.length = 3
    ∧ (fetch_all_sources (Except.error e) (Except.ok l)).2 = [e]) := by
  constructor
  · intro r1 r2
    cases r1 <;> cases r2 <;> rfl
  · intro e l hl
    exact ⟨hl, rfl⟩

/-- Witness for claim C7: a timeout on the first source, three listings from
the second. -/
theorem claim_C7_witness :
    (fetch_all_sources (Except.error (strL "timeout"))
        (Except.ok [⟨strL "a", strL "x"⟩, ⟨strL "b", strL "y"⟩, ⟨strL "c", strL "z"⟩])).1.length = 3
  ∧ (fetch_all_sources (Except.error (strL "timeout"))
        (Except.ok [⟨strL "a", strL "x"⟩, ⟨strL "b", strL "y"⟩, ⟨strL "c", strL "z"⟩])).2
      = [strL "timeout"] :=
  claim_C7.2 (strL "timeout")
    [⟨strL "a", strL "x"⟩, ⟨strL "b", strL "y"⟩, ⟨strL "c", strL "z"⟩] rfl

/-! # The link-builder claim -/

theorem hexVal_hexUp : ∀ k < 16, hexVal (hexUp k) = k := by decide

theorem hexUp_ne_amp : ∀ k < 16, ¬ hexUp k = '&' ∧ ¬ hexUp k = '=' := by decide

theorem safe_ne (c : Char) (hc : isSafeChar c = true) : ¬ c = '&' ∧ ¬ c = '=' ∧ ¬ c = '+' ∧ ¬ c = '%' := by
  refine ⟨?_, ?_, ?_, ?_⟩ <;> intro h <;> rw [h] at hc <;> exact absurd hc (by decide)

theorem unquotePlus_cons (c : Char) (rest : Str) :
    unquotePlus (c :: rest) =
      if c == '+' then ' ' :: unquotePlus rest
      else if c == '%' then
        match rest with
        | h1 :: h2 :: rest2 => Char.ofNat (16 * hexVal h1 + hexVal h2) :: unquotePlus rest2
        | [] => [c]
        | [h1] => [c, h1]
      else c :: unquotePlus rest := by
  rw [unquotePlus.eq_def]
  rfl

/-- quote_plus of one ASCII character, decoded, gives the character back. -/
theorem unquote_quoteChar (c : Char) (hc : c.toNat < 128) (rest : Str) :
    unquotePlus (quotePlusChar c ++ rest) = c :: unquotePlus rest := by
  by_cases hsp : (c == ' ') = true
  · have hce : c = ' ' := by simpa using hsp
    subst hce
    rw [quotePlusChar, if_pos hsp]
    rw [List.cons_append, List.nil_append, unquotePlus_cons, if_pos (by decide)]
  · by_cases hsafe : isSafeChar c = true
    · rw [quotePlusChar, if_neg (by simp [hsp]), if_pos hsafe]
      obtain ⟨-, -, hplus, hpct⟩ := safe_ne c hsafe
      rw [List.cons_append, List.nil_append, unquotePlus_cons,
        if_neg (by simpa using hplus), if_neg (by simpa using hpct)]
    · rw [quotePlusChar, if_neg (by simp [hsp]), if_neg hsafe]
      have hb : utf8Bytes c = [c.toNat] := by
        simp only [utf8Bytes, if_pos hc]
      rw [hb]
      show unquotePlus ('%' :: hexUp (c.toNat / 16) :: hexUp (c.toNat % 16) :: rest)
          = c :: unquotePlus rest
      rw [unquotePlus_cons, if_neg (by decide), if_pos (by decide)]
      show Char.ofNat (16 * hexVal (hexUp (c.toNat / 16)) + hexVal (hexUp (c.toNat % 16)))
          :: unquotePlus rest = c :: unquotePlus rest
      have h1 : hexVal (hexUp (c.toNat / 16)) = c.toNat / 16 :=
        hexVal_hexUp _ (by omega)
      have h2 : hexVal (hexUp (c.toNat % 16)) = c.toNat % 16 :=
        hexVal_hexUp _ (by omega)
      rw [h1, h2]
      have h3 : 16 * (c.toNat / 16) + c.toNat % 16 = c.toNat := by omega
      rw [h3, Char.ofNat_toNat]

/-- quote_plus of an ASCII string, decoded, gives the string back. -/
theorem unquote_quote : ∀ (s : Str), (∀ c ∈ s, c.toNat < 128) →
    unquotePlus (quotePlus s) = s
  | [], _ => rfl
  | c :: s, h => by
      show unquotePlus (quotePlusChar c ++ quotePlus s) = c :: s
      rw [unquote_quoteChar c (h c (List.mem_cons_self ..)) (quotePlus s)]
      rw [unquote_quote s (fun x hx => h x (List.mem_cons_of_mem _ hx))]

/-- The encoding of an ASCII string contains no ampersand and no equals
sign (both are percent-encoded). -/
theorem quotePlus_ascii_mem (s : Str) (hs : ∀ c ∈ s, c.toNat < 128) :
    ∀ x ∈ quotePlus s, ¬ x = '&' ∧ ¬ x = '=' := by
  induction s with
  | nil => intro x hx; cases hx
  | cons c s ih =>
      intro x hx
      have hx2 : x ∈ quotePlusChar c ++ quotePlus s := hx
      rcases List.mem_append.mp hx2 with h1 | h2
      · by_cases hsp : (c == ' ') = true
        · have hce : c = ' ' := by simpa using hsp
          subst hce
          rw [quotePlusChar, if_pos hsp] at h1
          have : x = '+' := by simpa using h1
          subst this
          exact ⟨by decide, by decide⟩
        · by_cases hsafe : isSafeChar c = true
          · rw [quotePlusChar, if_neg (by simp [hsp]), if_pos hsafe] at h1
            have : x = c := by simpa using h1
            subst this
            obtain ⟨ha, he, -, -⟩ := safe_ne x hsafe
            exact ⟨ha, he⟩
          · rw [quotePlusChar, if_neg (by simp [hsp]), if_neg hsafe] at h1
            have hb : utf8Bytes c = [c.toNat] := by
              simp only [utf8Bytes, if_pos (hs c (List.mem_cons_self ..))]
            rw [hb] at h1
            have hx3 : x = '%' ∨ x = hexUp (c.toNat / 16) ∨ x = hexUp (c.toNat % 16) := by
              simpa using h1
            have hcn := hs c (List.mem_cons_self ..)
            rcases hx3 with rfl | rfl | rfl
            · exact ⟨by decide, by decide⟩
            · exact hexUp_ne_amp _ (by omega)
            · exact hexUp_ne_amp _ (by omega)
      · exact ih (fun y hy => hs y (List.mem_cons_of_mem _ hy)) x h2

theorem splitOn_no_sep (sep : Char) : ∀ (a : Str), sep ∉ a → splitOnChar sep a = [a]
  | [], _ => rfl
  | c :: a, h => by
      have hc : (c == sep) = false := by
        simp only [beq_eq_false_iff_ne, ne_eq]
        intro hh
        exact h (hh ▸ List.mem_cons_self ..)
      rw [splitOnChar, hc]
      rw [splitOn_no_sep sep a (fun hm => h (List.mem_cons_of_mem _ hm))]
      rfl

theorem splitOn_append (sep : Char) : ∀ (a t : Str), sep ∉ a →
    splitOnChar sep (a ++ sep :: t) = a :: splitOnChar sep t
  | [], t, _ => by
      show splitOnChar sep (sep :: t) = [] :: splitOnChar sep t
      rw [splitOnChar, beq_self_eq_true]
      rfl
  | c :: a, t, h => by
      have hc : (c == sep) = false := by
        simp only [beq_eq_false_iff_ne, ne_eq]
        intro hh
        exact h (hh ▸ List.mem_cons_self ..)
      rw [List.cons_append, splitOnChar, hc]
      rw [splitOn_append sep a t (fun hm => h (List.mem_cons_of_mem _ hm))]
      rfl

theorem splitOn_joinAmp : ∀ (parts : List Str), (∀ p ∈ parts, '&' ∉ p) → parts ≠ [] →
    splitOnChar '&' (joinAmp parts) = parts
  | [], _, hne => absurd rfl hne
  | [p], h, _ => by
      rw [joinAmp]
      exact splitOn_no_sep '&' p (h p (List.mem_cons_self ..))
  | p :: q :: rest, h, _ => by
      rw [joinAmp, splitOn_append '&' p _ (h p (List.mem_cons_self ..))]
      rw [splitOn_joinAmp (q :: rest) (fun x hx => h x (List.mem_cons_of_mem _ hx)) (by simp)]

/-- Splitting one encoded key-value pair at its equals sign. -/
theorem decodeKV (k v : Str) (hk : '=' ∉ quotePlus k) :
    ((quotePlus k ++ '=' :: quotePlus v).takeWhile (fun c => !(c == '='))) = quotePlus k
  ∧ (((quotePlus k ++ '=' :: quotePlus v).dropWhile (fun c => !(c == '='))).drop 1) = quotePlus v := by
  have hall : ∀ c ∈ quotePlus k, (!(c == '=')) = true := by
    intro c hc
    have hne : c ≠ '=' := fun hh => hk (hh ▸ hc)
    simp [hne]
  constructor
  · rw [List.takeWhile_append_of_pos hall, List.takeWhile_cons_of_neg (by decide), List.append_nil]
  · rw [List.dropWhile_append_of_pos hall, List.dropWhile_cons_of_neg (by decide)]
    rfl

/-- Decoding inverts urlencode on nonempty ASCII parameter lists. -/
theorem decodeParams_urlencode : ∀ (ps : List (Str × Str)),
    (∀ p ∈ ps, (∀ c ∈ p.1, c.toNat < 128) ∧ (∀ c ∈ p.2, c.toNat < 128)) →
    ps ≠ [] → decodeParams (urlencode ps) = ps
  | [], _, hne => absurd rfl hne
  | [(k, v)], hps, _ => by
      obtain ⟨hk, hv⟩ := hps (k, v) (List.mem_cons_self ..)
      have hknoamp := quotePlus_ascii_mem k hk
      have hvnoamp := quotePlus_ascii_mem v hv
      have hnoamp : '&' ∉ quotePlus k ++ '=' :: quotePlus v := by
        intro hm
        rcases List.mem_append.mp hm with h1 | h2
        · exact (hknoamp _ h1).1 rfl
        · rcases List.mem_cons.mp h2 with h3 | h4
          · exact absurd h3 (by decide)
          · exact (hvnoamp _ h4).1 rfl
      have hkeq : '=' ∉ quotePlus k := fun hm => (hknoamp _ hm).2 rfl
      show decodeParams (joinAmp [quotePlus k ++ '=' :: quotePlus v]) = [(k, v)]
      rw [joinAmp]
      unfold decodeParams
      rw [splitOn_no_sep '&' _ hnoamp]
      simp only [List.map_cons, List.map_nil]
      rw [(decodeKV k v hkeq).1, (decodeKV k v hkeq).2]
      rw [unquote_quote k hk, unquote_quote v hv]
  | (k, v) :: q :: rest, hps, _ => by
      obtain ⟨hk, hv⟩ := hps (k, v) (List.mem_cons_self ..)
      have hknoamp := quotePlus_ascii_mem k hk
      have hvnoamp := quotePlus_ascii_mem v hv
      have hnoamp : '&' ∉ quotePlus k ++ '=' :: quotePlus v := by
        intro hm
        rcases List.mem_append.mp hm with h1 | h2
        · exact (hknoamp _ h1).1 rfl
        · rcases List.mem_cons.mp h2 with h3 | h4
          · exact absurd h3 (by decide)
          · exact (hvnoamp _ h4).1 rfl
      have hkeq : '=' ∉ quotePlus k := fun hm => (hknoamp _ hm).2 rfl
      have hrec := decodeParams_urlencode (q :: rest)
        (fun p hp => hps p (List.mem_cons_of_mem _ hp)) (by simp)
      unfold urlencode decodeParams at hrec ⊢
      simp only [List.map_cons] at hrec ⊢
      rw [joinAmp, splitOn_append '&' _ _ hnoamp]
      simp only [List.map_cons]
      rw [(decodeKV k v hkeq).1, (decodeKV k v hkeq).2]
      rw [unquote_quote k hk, unquote_quote v hv]
      rw [List.cons.injEq]
      exact ⟨rfl, hrec⟩

theorem digitChar_ascii : ∀ k < 10, (Nat.digitChar k).toNat < 128 := by decide

theorem natCharsAux_ascii : ∀ (fuel n : ℕ) (acc : Str), (∀ c ∈ acc, c.toNat < 128) →
    ∀ c ∈ natCharsAux fuel n acc, c.toNat < 128
  | 0, _, _, hacc => hacc
  | fuel + 1, n, acc, hacc => by
      rw [natCharsAux]
      split
      · next h =>
          intro c hc
          rcases List.mem_cons.mp hc with rfl | h2
          · exact digitChar_ascii n h
          · exact hacc _ h2
      · next h =>
          refine natCharsAux_ascii fuel (n / 10) _ ?_
          intro c hc
          rcases List.mem_cons.mp hc with rfl | h2
          · exact digitChar_ascii (n % 10) (Nat.mod_lt _ (by omega))
          · exact hacc _ h2

theorem natChars_ascii (n : ℕ) : ∀ c ∈ natChars n, c.toNat < 128 :=
  natCharsAux_ascii (n + 1) n [] (fun c hc => absurd hc (List.not_mem_nil c))

theorem padZ_ascii (w n : ℕ) : ∀ c ∈ padZ w n, c.toNat < 128 := by
  intro c hc
  rcases List.mem_append.mp hc with h1 | h2
  · have : c = '0' := List.eq_of_mem_replicate h1
    subst this
    decide
  · exact natChars_ascii n c h2

theorem iso_ascii (d : PyDate) : ∀ c ∈ isoformat d, c.toNat < 128 := by
  intro c hc
  unfold isoformat at hc
  rcases List.mem_append.mp hc with h1 | h2
  · rcases List.mem_append.mp h1 with h3 | h4
    · exact padZ_ascii 4 d.year c h3
    · rcases List.mem_cons.mp h4 with h5 | h6
      · subst h5; decide
      · exact padZ_ascii 2 d.month c h6
  · rcases List.mem_cons.mp h2 with h7 | h8
    · subst h7; decide
    · exact padZ_ascii 2 d.day c h8

theorem queryString_booking (q : Str) :
    queryString (strL "https://www.booking.com/searchresults.html?" ++ q) = q := by
  have hbase : strL "https://www.booking.com/searchresults.html?"
      = strL "https://www.booking.com/searchresults.html" ++ ['?'] := by decide
  rw [hbase, List.append_assoc]
  unfold queryString
  rw [List.dropWhile_append_of_pos (by decide)]
  rw [List.singleton_append, List.dropWhile_cons_of_neg (by decide)]
  rfl

theorem lookup_cons_eq {β : Type} (k k1 : Str) (v : β) (rest : List (Str × β))
    (h : (k == k1) = true) : List.lookup k ((k1, v) :: rest) = some v := by
  rw [List.lookup_cons, h]

theorem lookup_cons_ne {β : Type} (k k1 : Str) (v : β) (rest : List (Str × β))
    (h : (k == k1) = false) : List.lookup k ((k1, v) :: rest) = List.lookup k rest := by
  rw [List.lookup_cons, h]

/-- Claim C9 (amended): for ASCII city and area texts, decoding the query of
the produced URL recovers in the ss parameter the city followed by one space
and the area hint (the empty hint when absent) — not the city alone — and
recovers the exact check-in and computed check-out dates. -/
theorem claim_C9_amended (city : Str) (sd : PyDate) (nights : ℕ) (area : Option Str)
    (hss : ∀ c ∈ city ++ ' ' :: (area.getD []), c.toNat < 128) :
    lookupParam (strL "ss") (queryString (build_booking_link city (some sd) nights area))
      = some (city ++ ' ' :: (area.getD []))
  ∧ lookupParam (strL "checkin") (queryString (build_booking_link city (some sd) nights area))
      = some (isoformat sd)
  ∧ lookupParam (strL "checkout") (queryString (build_booking_link city (some sd) nights area))
      = some (isoformat (addDays sd nights)) := by
  have hq : queryString (build_booking_link city (some sd) nights area)
      = urlencode [(strL "ss", city ++ ' ' :: (area.getD [])),
                   (strL "checkin", isoformat sd),
                   (strL "checkout", isoformat (addDays sd nights)),
                   (strL "group_adults", natChars 2),
                   (strL "group_children", natChars 2),
                   (strL "no_rooms", natChars 1)] := by
    simp only [build_booking_link, List.cons_append, List.nil_append]
    exact queryString_booking _
  have hps : ∀ p ∈ [(strL "ss", city ++ ' ' :: (area.getD [])),
      (strL "checkin", isoformat sd),
      (strL "checkout", isoformat (addDays sd nights)),
      (strL "group_adults", natChars 2),
      (strL "group_children", natChars 2),
      (strL "no_rooms", natChars 1)],
      (∀ c ∈ p.1, c.toNat < 128) ∧ (∀ c ∈ p.2, c.toNat < 128) := by
    intro p hp
    simp only [List.mem_cons, List.not_mem_nil, or_false] at hp
    rcases hp with rfl | rfl | rfl | rfl | rfl | rfl
    · exact ⟨(by decide : ∀ c ∈ strL "ss", c.toNat < 128), hss⟩
    · exact ⟨(by decide : ∀ c ∈ strL "checkin", c.toNat < 128), iso_ascii sd⟩
    · exact ⟨(by decide : ∀ c ∈ strL "checkout", c.toNat < 128), iso_ascii (addDays sd nights)⟩
    · exact ⟨(by decide : ∀ c ∈ strL "group_adults", c.toNat < 128), natChars_ascii 2⟩
    · exact ⟨(by decide : ∀ c ∈ strL "group_children", c.toNat < 128), natChars_ascii 2⟩
    · exact ⟨(by decide : ∀ c ∈ strL "no_rooms", c.toNat < 128), natChars_ascii 1⟩
  have hd := decodeParams_urlencode _ hps (by simp)
  unfold lookupParam
  rw [hq, hd]
  refine ⟨?_, ?_, ?_⟩
  · exact lookup_cons_eq _ _ _ _ (by decide)
  · rw [lookup_cons_ne _ _ _ _ (by decide)]
    exact lookup_cons_eq _ _ _ _ (by decide)
  · rw [lookup_cons_ne _ _ _ _ (by decide), lookup_cons_ne _ _ _ _ (by decide)]
    exact lookup_cons_eq _ _ _ _ (by decide)

/-- Claim C9 counterexample: with city Lisbon and no area, the decoded ss
parameter is the seven characters of Lisbon followed by a space, not exactly
the supplied city — while the check-in and check-out dates do decode
exactly.  -/
theorem claim_C9_counterexample :
    lookupParam (strL "ss")
        (queryString (build_booking_link (strL "Lisbon") (some ⟨2025, 11, 2⟩) 6 none))
      = some (strL "Lisbon ")
  ∧ ¬ strL "Lisbon " = strL "Lisbon"
  ∧ lookupParam (strL "checkin")
        (queryString (build_booking_link (strL "Lisbon") (some ⟨2025, 11, 2⟩) 6 none))
      = some (strL "2025-11-02")
  ∧ lookupParam (strL "checkout")
        (queryString (build_booking_link (strL "Lisbon") (some ⟨2025, 11, 2⟩) 6 none))
      = some (strL "2025-11-08") := by
  decide

/-- Witness for the amended claim C9 at concrete ASCII inputs. -/
theorem claim_C9_witness :
    lookupParam (strL "ss")
        (queryString (build_booking_link (strL "Nice") (some ⟨2026, 1, 15⟩) 6 (some (strL "Vieux Nice"))))
      = some (strL "Nice" ++ ' ' :: ((some (strL "Vieux Nice")).getD []))
  ∧ lookupParam (strL "checkin")
        (queryString (build_booking_link (strL "Nice") (some ⟨2026, 1, 15⟩) 6 (some (strL "Vieux Nice"))))
      = some (isoformat ⟨2026, 1, 15⟩)
  ∧ lookupParam (strL "checkout")
        (queryString (build_booking_link (strL "Nice") (some ⟨2026, 1, 15⟩) 6 (some (strL "Vieux Nice"))))
      = some (isoformat (addDays ⟨2026, 1, 15⟩ 6)) :=
  claim_C9_amended (strL "Nice") ⟨2026, 1, 15⟩ 6 (some (strL "Vieux Nice")) (by decide)

end Travel
